import Mathlib

/-!
Verification development for the casadi `Integrator` /
`FixedStepIntegrator` / `ImplicitFixedStepIntegrator` core
(`src/casadi/core/function/integrator.cpp`).

The C++ code is shallowly embedded: sparsity patterns are summarized by
their nonzero count and column count, doubles are rationals extended with
a NaN element, boolean dependency bit-vectors are `List Bool`, and the
oracle / structural-solve collaborators are abstract function parameters.
Each definition mirrors one C++ function; line numbers in comments refer
to `integrator.cpp`.
-/

set_option maxHeartbeats 1000000

namespace Casadi

/-- Summary of a casadi `Sparsity` object: its nonzero count `nnz()`
and its column count `size2()`. -/
structure SpDim where
  nnz : Nat
  size2 : Nat
  deriving DecidableEq

/-- The oracle-derived dimension data of `Integrator`: the sparsity
summaries of `x_`, `z_`, `q_`, `p_`, `rx_`, `rz_`, `rq_`, `rp_`
(constructor, lines 115-123).  The scalar dimensions `nx_`, `nz_`, ...
are the `nnz` components (init, lines 283-290). -/
structure Dims where
  x : SpDim
  z : SpDim
  q : SpDim
  p : SpDim
  rx : SpDim
  rz : SpDim
  rq : SpDim
  rp : SpDim
  deriving DecidableEq

/-- The `Integrator::AugOffset` struct: one offset list per quantity. -/
structure AugOffset where
  x : List Nat
  z : List Nat
  q : List Nat
  p : List Nat
  rx : List Nat
  rz : List Nat
  rq : List Nat
  rp : List Nat
  deriving DecidableEq

/-- One iteration of the nondifferentiated/forward-direction loop of
`Integrator::getAugOffset` (lines 669-678): for each quantity with
nonzero `nnz`, append that quantity's own column count. -/
def fwdPush (d : Dims) (r : AugOffset) : AugOffset where
  x := if 0 < d.x.nnz then r.x ++ [d.x.size2] else r.x
  z := if 0 < d.z.nnz then r.z ++ [d.z.size2] else r.z
  q := if 0 < d.q.nnz then r.q ++ [d.q.size2] else r.q
  p := if 0 < d.p.nnz then r.p ++ [d.p.size2] else r.p
  rx := if 0 < d.rx.nnz then r.rx ++ [d.rx.size2] else r.rx
  rz := if 0 < d.rz.nnz then r.rz ++ [d.rz.size2] else r.rz
  rq := if 0 < d.rq.nnz then r.rq ++ [d.rq.size2] else r.rq
  rp := if 0 < d.rp.nnz then r.rp ++ [d.rp.size2] else r.rp

/-- One iteration of the adjoint-direction loop of
`Integrator::getAugOffset` (lines 681-690), transcribed exactly:
note that the `x` entry appends `x().size2()` (line 686) even though
its guard is `nrx_>0`. -/
def adjPush (d : Dims) (r : AugOffset) : AugOffset where
  rx := if 0 < d.x.nnz then r.rx ++ [d.x.size2] else r.rx
  rz := if 0 < d.z.nnz then r.rz ++ [d.z.size2] else r.rz
  rq := if 0 < d.p.nnz then r.rq ++ [d.p.size2] else r.rq
  rp := if 0 < d.q.nnz then r.rp ++ [d.q.size2] else r.rp
  x := if 0 < d.rx.nnz then r.x ++ [d.x.size2] else r.x
  z := if 0 < d.rz.nnz then r.z ++ [d.rz.size2] else r.z
  q := if 0 < d.rp.nnz then r.q ++ [d.rp.size2] else r.q
  p := if 0 < d.rq.nnz then r.p ++ [d.rq.size2] else r.p

/-- Tail of the sequential in-place prefix sum `ret[i] += ret[i-1]`. -/
def cumsumFrom (acc : Nat) : List Nat → List Nat
  | [] => []
  | v :: rest => (acc + v) :: cumsumFrom (acc + v) rest

/-- The cumulative-offset pass of `getAugOffset` (lines 693-700). -/
def cumsum : List Nat → List Nat
  | [] => []
  | v :: rest => v :: cumsumFrom v rest

/-- `Integrator::getAugOffset(nfwd, nadj)` (lines 656-704): lists start
as `[0]`, the loop `for (dir=-1; dir<nfwd; ++dir)` runs `nfwd+1` times,
the adjoint loop runs `nadj` times, then each list is prefix-summed. -/
def getAugOffset (d : Dims) (nfwd nadj : Nat) : AugOffset :=
  let r0 : AugOffset := ⟨[0], [0], [0], [0], [0], [0], [0], [0]⟩
  let r1 := (fwdPush d)^[nfwd + 1] r0
  let r2 := (adjPush d)^[nadj] r1
  ⟨cumsum r2.x, cumsum r2.z, cumsum r2.q, cumsum r2.p,
   cumsum r2.rx, cumsum r2.rz, cumsum r2.rq, cumsum r2.rp⟩

/-- Column counts of the stacked (horzcat) blocks of the augmented
problem, one field per quantity (variable block and matching
equation block always have the same column count, since each
sensitivity equation is projected onto its quantity's sparsity). -/
structure AugCols where
  x : Nat
  z : Nat
  q : Nat
  p : Nat
  rx : Nat
  rz : Nat
  rq : Nat
  rp : Nat
  deriving DecidableEq

/-- Column counts of the augmented blocks produced by
`Integrator::aug_fwd(nfwd)` and `Integrator::aug_adj(nadj)` over the
shared nondifferentiated base.  `aug_fwd` appends, per forward
direction, a fresh symbol with the quantity's own sparsity
(lines 347-352) and the matching projected sensitivity equation
(lines 363-368).  `aug_adj` appends, per adjoint direction, the
role-swapped quantity: `aug_x` gets an `rx()`-shaped symbol (line 423),
`aug_z` an `rz()`-shaped one (line 424), `aug_p` an `rq()`-shaped one
(line 425), `aug_rx` an `x()`-shaped one (line 420), `aug_rz` a
`z()`-shaped one (line 421), `aug_rp` a `q()`-shaped one (line 422);
the quadrature stacks get `project(..., rp())` (line 441) and
`project(..., p())` (line 438) respectively. -/
def augCols (d : Dims) (nfwd nadj : Nat) : AugCols where
  x := d.x.size2 + nfwd * d.x.size2 + nadj * d.rx.size2
  z := d.z.size2 + nfwd * d.z.size2 + nadj * d.rz.size2
  q := d.q.size2 + nfwd * d.q.size2 + nadj * d.rp.size2
  p := d.p.size2 + nfwd * d.p.size2 + nadj * d.rq.size2
  rx := d.rx.size2 + nfwd * d.rx.size2 + nadj * d.x.size2
  rz := d.rz.size2 + nfwd * d.rz.size2 + nadj * d.z.size2
  rq := d.rq.size2 + nfwd * d.rq.size2 + nadj * d.p.size2
  rp := d.rp.size2 + nfwd * d.rp.size2 + nadj * d.q.size2

/-- Dimension tuple exhibiting the offset/augmentation mismatch: a dense
1-by-1 forward state and a dense 1-by-2 backward state (so
`x().size2() = 1` but `rx().size2() = 2`); all other quantities empty. -/
def mismatchDims : Dims where
  x := ⟨1, 1⟩
  z := ⟨0, 1⟩
  q := ⟨0, 1⟩
  p := ⟨0, 1⟩
  rx := ⟨2, 2⟩
  rz := ⟨0, 1⟩
  rq := ⟨0, 1⟩
  rp := ⟨0, 1⟩

/-- C1: the offset-table/augmentation alignment fails on the code.  At
`mismatchDims` with `(n_fwd, n_adj) = (0, 1)`, the final cumulative
x-offset computed by `getAugOffset` is `2` (line 686 appends
`x().size2() = 1` for the adjoint direction), while the augmented x
block stacked by `aug_adj` has `3` columns (line 423 stacks an
`rx()`-shaped symbol of `2` columns onto the 1-column base), so the
claimed equality fails; the rx block, whose offset entry uses the
role-swapped `x().size2()` as the claim requires, does align. -/
theorem getAugOffset_adjoint_x_mismatch :
    (getAugOffset mismatchDims 0 1).x = [0, 1, 2] ∧
    (augCols mismatchDims 0 1).x = 3 ∧
    (getAugOffset mismatchDims 0 1).x.getLastD 0 ≠ (augCols mismatchDims 0 1).x ∧
    (getAugOffset mismatchDims 0 1).rx = [0, 2, 3] ∧
    (getAugOffset mismatchDims 0 1).rx.getLastD 0 = (augCols mismatchDims 0 1).rx := by
  decide

/-- One call made by `Integrator::eval` on its stepping interface. -/
inductive EvalOp where
  | reset (t : ℚ)
  | advance (t : ℚ)
  | resetB (t : ℚ)
  | retreat (t : ℚ)
  deriving DecidableEq

/-- The backward dimensions `nrx_`, `nrz_`, `nrp_`, `nrq_`. -/
structure BDims where
  nrx : Nat
  nrz : Nat
  nrp : Nat
  nrq : Nat
  deriving DecidableEq

/-- The sequence of stepping calls made by `Integrator::eval`
(lines 159-210): one `reset` at `grid_.front()` (line 185), then the
loop `for (k=0; k<grid_.size(); ++k)` calling `advance(grid_[k])` but
skipping iteration `k==0` when `!output_t0_` (lines 188-197), then,
only when `nrx_>0`, one `resetB` at `grid_.back()` and one `retreat`
to `grid_.front()` (lines 200-206). -/
def evalOps (grid : List ℚ) (outputT0 : Bool) (d : BDims) : List EvalOp :=
  EvalOp.reset grid.headI ::
    (((List.range grid.length).filterMap fun k =>
        if k = 0 ∧ outputT0 = false then none
        else some (EvalOp.advance (grid.getD k 0))) ++
      (if 0 < d.nrx then
        [EvalOp.resetB (grid.getLastD 0), EvalOp.retreat grid.headI]
      else []))

/-- The advance targets appearing in a call trace, in order. -/
def advanceTargets (ops : List EvalOp) : List ℚ :=
  ops.filterMap fun op =>
    match op with
    | EvalOp.advance t => some t
    | _ => none

theorem filterMap_all_some {α β : Type} (h : α → β) :
    ∀ l : List α, (l.filterMap fun x => some (h x)) = l.map h
  | [] => rfl
  | a :: l => by
    simp only [List.filterMap_cons, List.map_cons]
    exact congrArg (h a :: ·) (filterMap_all_some h l)

theorem map_getD_range {α : Type} (d : α) :
    ∀ l : List α, (List.range l.length).map (fun k => l.getD k d) = l
  | [] => rfl
  | a :: l => by
    rw [List.length_cons, List.range_succ_eq_map, List.map_cons, List.map_map]
    refine congrArg₂ (· :: ·) rfl ?_
    have : ((fun k => (a :: l).getD k d) ∘ Nat.succ) = fun k => l.getD k d := by
      funext k
      simp [List.getD_cons_succ]
    rw [this, map_getD_range d l]

theorem eval_advances_char (g : List ℚ) (b : Bool) :
    ((List.range g.length).filterMap fun k =>
        if k = 0 ∧ b = false then none
        else some (EvalOp.advance (g.getD k 0))) =
      (if b then g else g.drop 1).map EvalOp.advance := by
  cases g with
  | nil => cases b <;> simp
  | cons a l =>
    rw [List.length_cons, List.range_succ_eq_map, List.filterMap_cons,
      List.filterMap_map]
    have htail : (List.range l.length).filterMap
        ((fun k => if k = 0 ∧ b = false then none
          else some (EvalOp.advance ((a :: l).getD k 0))) ∘ Nat.succ) =
        l.map (fun t => EvalOp.advance t) := by
      have heq : ((fun k => if k = 0 ∧ b = false then none
          else some (EvalOp.advance ((a :: l).getD k 0))) ∘ Nat.succ) =
          fun k => some (EvalOp.advance (l.getD k 0)) := by
        funext k
        simp [List.getD_cons_succ]
      rw [heq, filterMap_all_some (fun k => EvalOp.advance (l.getD k 0))]
      rw [show (fun k => EvalOp.advance (l.getD k 0)) =
            ((fun t => EvalOp.advance t) ∘ fun k => l.getD k 0) from rfl]
      rw [← List.map_map, map_getD_range]
    cases b with
    | false =>
      rw [if_pos ⟨rfl, rfl⟩, htail]
      simp
    | true =>
      rw [if_neg (by simp)]
      rw [htail]
      simp [List.getD_cons_zero]

/-- C2: `Integrator::eval` performs exactly one `reset` at
`grid.front()`, then one `advance` per grid point in index (hence
increasing-time) order, skipping the advance at `grid[0]` iff
`output_t0` is false; the backward leg (`resetB` at `grid.back()`
followed by `retreat` to `grid.front()`) is present iff `nrx > 0`,
and the trace is invariant under changes to `nrz`, `nrp`, `nrq`. -/
theorem eval_protocol :
    (∀ (grid : List ℚ) (b : Bool) (d : BDims),
        evalOps grid b d =
          EvalOp.reset grid.headI ::
            ((if b then grid else grid.drop 1).map EvalOp.advance ++
              (if 0 < d.nrx then
                [EvalOp.resetB (grid.getLastD 0), EvalOp.retreat grid.headI]
              else []))) ∧
    (∀ (grid : List ℚ) (b : Bool) (d d' : BDims), d.nrx = d'.nrx →
        evalOps grid b d = evalOps grid b d') ∧
    (∀ (grid : List ℚ) (b : Bool) (d : BDims),
        EvalOp.resetB (grid.getLastD 0) ∈ evalOps grid b d ↔ 0 < d.nrx) ∧
    (∀ (grid : List ℚ) (b : Bool) (d : BDims),
        (evalOps grid b d).countP
          (fun op => match op with | EvalOp.reset _ => true | _ => false) = 1) ∧
    (∀ (grid : List ℚ) (b : Bool) (d : BDims),
        advanceTargets (evalOps grid b d) = (if b then grid else grid.drop 1) ∧
        (grid.Chain' (· < ·) →
          (advanceTargets (evalOps grid b d)).Chain' (· < ·))) := by
  have hchar : ∀ (grid : List ℚ) (b : Bool) (d : BDims),
      evalOps grid b d =
        EvalOp.reset grid.headI ::
          ((if b then grid else grid.drop 1).map EvalOp.advance ++
            (if 0 < d.nrx then
              [EvalOp.resetB (grid.getLastD 0), EvalOp.retreat grid.headI]
            else [])) := by
    intro grid b d
    unfold evalOps
    rw [eval_advances_char]
  have htargets : ∀ (grid : List ℚ) (b : Bool) (d : BDims),
      advanceTargets (evalOps grid b d) = (if b then grid else grid.drop 1) := by
    intro grid b d
    rw [hchar]
    unfold advanceTargets
    rw [List.filterMap_cons]
    simp only [List.filterMap_append, List.filterMap_map]
    have hcomp : ((fun op =>
        match op with
        | EvalOp.advance t => some t
        | _ => none) ∘ EvalOp.advance) = fun (t : ℚ) => some ((fun s => s) t) := by
      funext t
      rfl
    rw [hcomp, filterMap_all_some (fun (s : ℚ) => s), List.map_id']
    by_cases h : 0 < d.nrx <;> simp [h]
  refine ⟨hchar, ?_, ?_, ?_, ?_⟩
  · intro grid b d d' h
    unfold evalOps
    rw [h]
  · intro grid b d
    rw [hchar]
    by_cases h : 0 < d.nrx <;> simp [h]
  · intro grid b d
    rw [hchar]
    by_cases h : 0 < d.nrx <;>
      simp [h, List.countP_cons, List.countP_append, List.countP_map,
        Function.comp]
  · intro grid b d
    refine ⟨htargets grid b d, ?_⟩
    intro hs
    rw [htargets]
    cases b with
    | true => simpa using hs
    | false =>
      simp only [if_neg Bool.false_ne_true, List.drop_one]
      exact hs.tail

/-- Witness for C2 at a concrete grid and concrete dimensions. -/
theorem eval_protocol_witness :
    evalOps [0, 1] true ⟨1, 0, 0, 0⟩ = evalOps [0, 1] true ⟨1, 5, 6, 7⟩ ∧
    (advanceTargets (evalOps [0, 1] true ⟨1, 0, 0, 0⟩)).Chain' (· < ·) := by
  refine ⟨eval_protocol.2.1 [0, 1] true ⟨1, 0, 0, 0⟩ ⟨1, 5, 6, 7⟩ rfl, ?_⟩
  refine (eval_protocol.2.2.2.2 [0, 1] true ⟨1, 0, 0, 0⟩).2 ?_
  norm_num [List.chain'_cons]

/-- A C `double` for the purposes of this core: an exact rational or
the quiet NaN used to invalidate the algebraic cache. -/
inductive Dbl where
  | nan : Dbl
  | val (q : ℚ) : Dbl
  deriving DecidableEq

/-- Addition on `Dbl`; NaN is absorbing, as for IEEE quiet NaN. -/
def Dbl.add : Dbl → Dbl → Dbl
  | Dbl.val a, Dbl.val b => Dbl.val (a + b)
  | _, _ => Dbl.nan

/-- The double value 0. -/
def dzero : Dbl := Dbl.val 0

/-- `casadi_copy(src, n, dst)`: overwrite the first `n` entries of the
destination buffer with the first `n` entries of the source. -/
def copyN (src dst : List Dbl) (n : Nat) : List Dbl :=
  src.take n ++ dst.drop n

/-- `casadi_fill(dst, n, v)`: overwrite the first `n` entries with `v`. -/
def fillN (dst : List Dbl) (n : Nat) (v : Dbl) : List Dbl :=
  List.replicate n v ++ dst.drop n

/-- `casadi_axpy(n, 1., src, dst)`: `dst[i] += src[i]` for `i < n`. -/
def axpy1 (n : Nat) (src dst : List Dbl) : List Dbl :=
  List.zipWith Dbl.add (dst.take n) (src.take n) ++ dst.drop n

/-- Static configuration of a `FixedStepIntegrator`: the problem
dimensions `nx_` ... `nrq_`, the discrete-time algebraic dimensions
`nZ_`/`nRZ_`, the finite-element count `nk_`, and the two grid
endpoints (`grid_.front()`, `grid_.back()`). -/
structure FsConfig where
  nx : Nat
  nz : Nat
  nq : Nat
  np : Nat
  nrx : Nat
  nrz : Nat
  nrp : Nat
  nrq : Nat
  nZ : Nat
  nRZ : Nat
  nk : Nat
  gridFront : ℚ
  gridBack : ℚ
  deriving DecidableEq

/-- The step size `h_ = (grid_.back() - grid_.front())/nk_`
(FixedStepIntegrator::init, line 1077). -/
def FsConfig.h (c : FsConfig) : ℚ :=
  (c.gridBack - c.gridFront) / (c.nk : ℚ)

/-- The `FixedStepMemory` runtime scratch: discrete step counter `k`,
current time `t`, the state vectors and their previous-step shadows,
the discrete algebraic values `Z`/`RZ`, and the two tapes.
`tapeReads` is a ghost log recording, in order, each tape index `k`
at which `retreat` wires `m->x_tape.at(k)` / `m->Z_tape.at(k)` into
the backward oracle call; it has no C++ counterpart and no C++ code
path depends on it. -/
structure FsMem where
  t : ℚ
  k : Nat
  x : List Dbl
  z : List Dbl
  p : List Dbl
  q : List Dbl
  rx : List Dbl
  rz : List Dbl
  rp : List Dbl
  rq : List Dbl
  x_prev : List Dbl
  Z_prev : List Dbl
  q_prev : List Dbl
  rx_prev : List Dbl
  RZ_prev : List Dbl
  rq_prev : List Dbl
  Z : List Dbl
  RZ : List Dbl
  x_tape : List (List Dbl)
  Z_tape : List (List Dbl)
  tapeReads : List Nat
  deriving DecidableEq

/-- The explicit discrete forward dynamics `F`: inputs
`(DAE_T, DAE_X, DAE_Z, DAE_P)` as wired in `advance` (lines 1131-1135),
outputs `(DAE_ODE, DAE_ALG, DAE_QUAD)` (lines 1138-1141). -/
def OracleF : Type :=
  ℚ → List Dbl → List Dbl → List Dbl → List Dbl × List Dbl × List Dbl

/-- The explicit discrete backward dynamics `G`: inputs
`(RDAE_T, RDAE_P, RDAE_X, RDAE_Z, RDAE_RX, RDAE_RZ, RDAE_RP)` as wired
in `retreat` (lines 1184-1189 and 1209-1210), outputs
`(RDAE_ODE, RDAE_ALG, RDAE_QUAD)` (lines 1192-1195). -/
def OracleG : Type :=
  ℚ → List Dbl → List Dbl → List Dbl → List Dbl → List Dbl → List Dbl →
    List Dbl × List Dbl × List Dbl

/-- `FixedStepIntegrator::init_memory` (lines 1087-1116): zero the
discrete algebraic variables, allocate the tapes only when `nrx_>0`
(`nk_+1` differential entries of size `nx_`, `nk_` algebraic entries of
size `nZ_`), and allocate the state vectors (`std::vector::resize`
value-initializes doubles to 0). -/
def initMemory (c : FsConfig) : FsMem where
  t := 0
  k := 0
  x := List.replicate c.nx dzero
  z := List.replicate c.nz dzero
  p := List.replicate c.np dzero
  q := List.replicate c.nq dzero
  rx := List.replicate c.nrx dzero
  rz := List.replicate c.nrz dzero
  rp := List.replicate c.nrp dzero
  rq := List.replicate c.nrq dzero
  x_prev := List.replicate c.nx dzero
  Z_prev := List.replicate c.nZ dzero
  q_prev := List.replicate c.nq dzero
  rx_prev := List.replicate c.nrx dzero
  RZ_prev := List.replicate c.nRZ dzero
  rq_prev := List.replicate c.nrq dzero
  Z := List.replicate c.nZ dzero
  RZ := List.replicate c.nRZ dzero
  x_tape := if 0 < c.nrx then List.replicate (c.nk + 1) (List.replicate c.nx dzero) else []
  Z_tape := if 0 < c.nrx then List.replicate c.nk (List.replicate c.nZ dzero) else []
  tapeReads := []

/-- `FixedStepIntegrator::reset` (lines 1221-1249): set the time, copy
the parameter and state inputs, zero the quadratures, rewind `k` to 0,
fill `Z` (all `m->Z.nnz()` entries) with NaN, and, when `nrx_>0`, copy
the initial state into tape position 0. -/
def reset (c : FsConfig) (m : FsMem) (t : ℚ) (x0 z0 p : List Dbl) : FsMem :=
  { m with
    t := t
    p := copyN p m.p c.np
    x := copyN x0 m.x c.nx
    z := copyN z0 m.z c.nz
    q := fillN m.q c.nq dzero
    k := 0
    Z := fillN m.Z m.Z.length Dbl.nan
    x_tape := if 0 < c.nrx then
        m.x_tape.set 0 (copyN x0 (m.x_tape.getD 0 []) c.nx)
      else m.x_tape }

/-- `FixedStepIntegrator::resetB` (lines 1251-1273): the time-reversed
mirror of `reset`, with `k` brought to `nk_` and `RZ` NaN-filled. -/
def resetB (c : FsConfig) (m : FsMem) (t : ℚ) (rx0 rz0 rp : List Dbl) : FsMem :=
  { m with
    t := t
    rp := copyN rp m.rp c.nrp
    rx := copyN rx0 m.rx c.nrx
    rz := copyN rz0 m.rz c.nrz
    rq := fillN m.rq c.nrq dzero
    k := c.nk
    RZ := fillN m.RZ m.RZ.length Dbl.nan }

/-- One iteration of the `while (m->k<k_out)` loop of
`FixedStepIntegrator::advance` (lines 1144-1163): snapshot the
previous step, take one step of `F` (which reads the current `m->t`),
add the previous quadrature, record tape entries at indices `k+1`
(state) and `k` (algebraic) when `nrx_>0`, then advance `k` and `t`. -/
def advanceStep (c : FsConfig) (F : OracleF) (m : FsMem) : FsMem :=
  let xp := copyN m.x m.x_prev c.nx
  let Zp := copyN m.Z m.Z_prev c.nZ
  let qp := copyN m.q m.q_prev c.nq
  let r := F m.t xp Zp m.p
  { m with
    x_prev := xp
    Z_prev := Zp
    q_prev := qp
    x := r.1
    Z := r.2.1
    q := axpy1 c.nq qp r.2.2
    x_tape := if 0 < c.nrx then
        m.x_tape.set (m.k + 1) (copyN r.1 (m.x_tape.getD (m.k + 1) []) c.nx)
      else m.x_tape
    Z_tape := if 0 < c.nrx then
        m.Z_tape.set m.k (copyN r.2.1 (m.Z_tape.getD m.k []) c.nZ)
      else m.Z_tape
    k := m.k + 1
    t := c.gridFront + ((m.k + 1 : Nat) : ℚ) * c.h }

/-- The `while (m->k<k_out)` loop of `advance`. -/
def advanceLoop (c : FsConfig) (F : OracleF) (kout : Nat) (m : FsMem) : FsMem :=
  if m.k < kout then advanceLoop c F kout (advanceStep c F m) else m
termination_by kout - m.k
decreasing_by
  simp only [advanceStep]
  omega

/-- The raw `std::ceil((t - grid_.front())/h_)` of `advance`
(line 1123). -/
def advanceKoutRaw (c : FsConfig) (t : ℚ) : Int :=
  Int.ceil ((t - c.gridFront) / c.h)

/-- The discrete target step of `advance` after `std::min(k_out, nk_)`
(line 1124). -/
def advanceKout (c : FsConfig) (t : ℚ) : Int :=
  min (advanceKoutRaw c t) (c.nk : Int)

/-- `FixedStepIntegrator::advance` (lines 1118-1169): compute the
target step (with `casadi_assert(k_out>=0)` modelled as `none`), run
the stepping loop, and copy out the state, the trailing `nz_` entries
of `Z`, and the quadratures. -/
def advance (c : FsConfig) (F : OracleF) (m : FsMem) (t : ℚ) :
    Option (FsMem × (List Dbl × List Dbl × List Dbl)) :=
  let kout := advanceKout c t
  if kout < 0 then none
  else
    let m' := advanceLoop c F kout.toNat m
    some (m', (m'.x.take c.nx, (m'.Z.drop (c.nZ - c.nz)).take c.nz,
      m'.q.take c.nq))

/-- One iteration of the `while (m->k>k_out)` loop of
`FixedStepIntegrator::retreat` (lines 1198-1213): decrement `k` and
rewind `t` first, snapshot the previous backward step, wire the tape
entries at the decremented index `k` into the backward oracle, take
one step of `G`, and add the previous backward quadrature. -/
def retreatStep (c : FsConfig) (G : OracleG) (m : FsMem) : FsMem :=
  let k1 := m.k - 1
  let rxp := copyN m.rx m.rx_prev c.nrx
  let RZp := copyN m.RZ m.RZ_prev c.nRZ
  let rqp := copyN m.rq m.rq_prev c.nrq
  let r := G (c.gridFront + (k1 : ℚ) * c.h) m.p (m.x_tape.getD k1 [])
    (m.Z_tape.getD k1 []) rxp RZp m.rp
  { m with
    k := k1
    t := c.gridFront + (k1 : ℚ) * c.h
    rx_prev := rxp
    RZ_prev := RZp
    rq_prev := rqp
    rx := r.1
    RZ := r.2.1
    rq := axpy1 c.nrq rqp r.2.2
    tapeReads := m.tapeReads ++ [k1] }

/-- The `while (m->k>k_out)` loop of `retreat`. -/
def retreatLoop (c : FsConfig) (G : OracleG) (kout : Nat) (m : FsMem) : FsMem :=
  if kout < m.k then retreatLoop c G kout (retreatStep c G m) else m
termination_by m.k
decreasing_by
  simp only [retreatStep]
  omega

/-- The raw `std::floor((t - grid_.front())/h_)` of `retreat`
(line 1176). -/
def retreatKoutRaw (c : FsConfig) (t : ℚ) : Int :=
  Int.floor ((t - c.gridFront) / c.h)

/-- The discrete target step of `retreat` after `std::max(k_out, 0)`
(line 1177). -/
def retreatKout (c : FsConfig) (t : ℚ) : Int :=
  max (retreatKoutRaw c t) 0

/-- `FixedStepIntegrator::retreat` (lines 1171-1219): compute the
target step (with `casadi_assert(k_out<=nk_)` modelled as `none`), run
the backward stepping loop, and copy out the backward state, the
trailing `nrz_` entries of `RZ`, and the backward quadratures. -/
def retreat (c : FsConfig) (G : OracleG) (m : FsMem) (t : ℚ) :
    Option (FsMem × (List Dbl × List Dbl × List Dbl)) :=
  let kout := retreatKout c t
  if (c.nk : Int) < kout then none
  else
    let m' := retreatLoop c G kout.toNat m
    some (m', (m'.rx.take c.nrx, (m'.RZ.drop (c.nRZ - c.nrz)).take c.nrz,
      m'.rq.take c.nrq))

theorem advanceStep_k (c : FsConfig) (F : OracleF) (m : FsMem) :
    (advanceStep c F m).k = m.k + 1 := rfl

theorem retreatStep_k (c : FsConfig) (G : OracleG) (m : FsMem) :
    (retreatStep c G m).k = m.k - 1 := rfl

theorem advanceLoop_k (c : FsConfig) (F : OracleF) (kout : Nat)
    (m : FsMem) : (advanceLoop c F kout m).k = max m.k kout := by
  have key : ∀ (n : Nat) (m : FsMem), kout - m.k ≤ n →
      (advanceLoop c F kout m).k = max m.k kout := by
    intro n
    induction n with
    | zero =>
      intro m h
      rw [advanceLoop, if_neg (by omega)]
      omega
    | succ n ih =>
      intro m h
      by_cases hk : m.k < kout
      · rw [advanceLoop, if_pos hk]
        have hb : kout - (advanceStep c F m).k ≤ n := by
          rw [advanceStep_k]
          omega
        rw [ih (advanceStep c F m) hb, advanceStep_k]
        omega
      · rw [advanceLoop, if_neg hk]
        omega
  exact key (kout - m.k) m le_rfl

theorem retreatLoop_k (c : FsConfig) (G : OracleG) (kout : Nat)
    (m : FsMem) : (retreatLoop c G kout m).k = min m.k kout := by
  have key : ∀ (n : Nat) (m : FsMem), m.k ≤ n →
      (retreatLoop c G kout m).k = min m.k kout := by
    intro n
    induction n with
    | zero =>
      intro m h
      rw [retreatLoop, if_neg (by omega)]
      omega
    | succ n ih =>
      intro m h
      by_cases hk : kout < m.k
      · rw [retreatLoop, if_pos hk]
        have hb : (retreatStep c G m).k ≤ n := by
          rw [retreatStep_k]
          omega
        rw [ih (retreatStep c G m) hb, retreatStep_k]
        omega
      · rw [retreatLoop, if_neg hk]
        omega
  exact key m.k m le_rfl

/-- Fields of the runtime memory that one forward step never touches. -/
theorem advanceStep_frame (c : FsConfig) (F : OracleF) (m : FsMem) :
    (advanceStep c F m).rx = m.rx ∧ (advanceStep c F m).rz = m.rz ∧
    (advanceStep c F m).rq = m.rq ∧ (advanceStep c F m).rx_prev = m.rx_prev ∧
    (advanceStep c F m).RZ_prev = m.RZ_prev ∧
    (advanceStep c F m).rq_prev = m.rq_prev ∧
    (advanceStep c F m).p = m.p ∧ (advanceStep c F m).rp = m.rp ∧
    (advanceStep c F m).z = m.z ∧ (advanceStep c F m).RZ = m.RZ ∧
    (advanceStep c F m).tapeReads = m.tapeReads :=
  ⟨rfl, rfl, rfl, rfl, rfl, rfl, rfl, rfl, rfl, rfl, rfl⟩

theorem advanceLoop_frame (c : FsConfig) (F : OracleF) (kout : Nat)
    (m : FsMem) :
    (advanceLoop c F kout m).rx = m.rx ∧ (advanceLoop c F kout m).rz = m.rz ∧
    (advanceLoop c F kout m).rq = m.rq ∧
    (advanceLoop c F kout m).rx_prev = m.rx_prev ∧
    (advanceLoop c F kout m).RZ_prev = m.RZ_prev ∧
    (advanceLoop c F kout m).rq_prev = m.rq_prev ∧
    (advanceLoop c F kout m).p = m.p ∧ (advanceLoop c F kout m).rp = m.rp ∧
    (advanceLoop c F kout m).z = m.z ∧ (advanceLoop c F kout m).RZ = m.RZ ∧
    (advanceLoop c F kout m).tapeReads = m.tapeReads := by
  have key : ∀ (n : Nat) (m : FsMem), kout - m.k ≤ n →
      (advanceLoop c F kout m).rx = m.rx ∧
      (advanceLoop c F kout m).rz = m.rz ∧
      (advanceLoop c F kout m).rq = m.rq ∧
      (advanceLoop c F kout m).rx_prev = m.rx_prev ∧
      (advanceLoop c F kout m).RZ_prev = m.RZ_prev ∧
      (advanceLoop c F kout m).rq_prev = m.rq_prev ∧
      (advanceLoop c F kout m).p = m.p ∧
      (advanceLoop c F kout m).rp = m.rp ∧
      (advanceLoop c F kout m).z = m.z ∧
      (advanceLoop c F kout m).RZ = m.RZ ∧
      (advanceLoop c F kout m).tapeReads = m.tapeReads := by
    intro n
    induction n with
    | zero =>
      intro m h
      rw [advanceLoop, if_neg (by omega)]
      exact ⟨rfl, rfl, rfl, rfl, rfl, rfl, rfl, rfl, rfl, rfl, rfl⟩
    | succ n ih =>
      intro m h
      by_cases hk : m.k < kout
      · rw [advanceLoop, if_pos hk]
        have hb : kout - (advanceStep c F m).k ≤ n := by
          rw [advanceStep_k]
          omega
        have h1 := ih (advanceStep c F m) hb
        have h2 := advanceStep_frame c F m
        exact ⟨h1.1.trans h2.1, h1.2.1.trans h2.2.1, h1.2.2.1.trans h2.2.2.1,
          h1.2.2.2.1.trans h2.2.2.2.1, h1.2.2.2.2.1.trans h2.2.2.2.2.1,
          h1.2.2.2.2.2.1.trans h2.2.2.2.2.2.1,
          h1.2.2.2.2.2.2.1.trans h2.2.2.2.2.2.2.1,
          h1.2.2.2.2.2.2.2.1.trans h2.2.2.2.2.2.2.2.1,
          h1.2.2.2.2.2.2.2.2.1.trans h2.2.2.2.2.2.2.2.2.1,
          h1.2.2.2.2.2.2.2.2.2.1.trans h2.2.2.2.2.2.2.2.2.2.1,
          h1.2.2.2.2.2.2.2.2.2.2.trans h2.2.2.2.2.2.2.2.2.2.2⟩
      · rw [advanceLoop, if_neg hk]
        exact ⟨rfl, rfl, rfl, rfl, rfl, rfl, rfl, rfl, rfl, rfl, rfl⟩
  exact key (kout - m.k) m le_rfl

/-- Fields of the runtime memory that one backward step never touches;
in particular both tapes are only read. -/
theorem retreatStep_frame (c : FsConfig) (G : OracleG) (m : FsMem) :
    (retreatStep c G m).x = m.x ∧ (retreatStep c G m).z = m.z ∧
    (retreatStep c G m).q = m.q ∧ (retreatStep c G m).x_prev = m.x_prev ∧
    (retreatStep c G m).Z_prev = m.Z_prev ∧
    (retreatStep c G m).q_prev = m.q_prev ∧
    (retreatStep c G m).p = m.p ∧ (retreatStep c G m).rp = m.rp ∧
    (retreatStep c G m).x_tape = m.x_tape ∧
    (retreatStep c G m).Z_tape = m.Z_tape ∧
    (retreatStep c G m).Z = m.Z :=
  ⟨rfl, rfl, rfl, rfl, rfl, rfl, rfl, rfl, rfl, rfl, rfl⟩

theorem retreatLoop_frame (c : FsConfig) (G : OracleG) (kout : Nat)
    (m : FsMem) :
    (retreatLoop c G kout m).x = m.x ∧ (retreatLoop c G kout m).z = m.z ∧
    (retreatLoop c G kout m).q = m.q ∧
    (retreatLoop c G kout m).x_prev = m.x_prev ∧
    (retreatLoop c G kout m).Z_prev = m.Z_prev ∧
    (retreatLoop c G kout m).q_prev = m.q_prev ∧
    (retreatLoop c G kout m).p = m.p ∧ (retreatLoop c G kout m).rp = m.rp ∧
    (retreatLoop c G kout m).x_tape = m.x_tape ∧
    (retreatLoop c G kout m).Z_tape = m.Z_tape ∧
    (retreatLoop c G kout m).Z = m.Z := by
  have key : ∀ (n : Nat) (m : FsMem), m.k ≤ n →
      (retreatLoop c G kout m).x = m.x ∧
      (retreatLoop c G kout m).z = m.z ∧
      (retreatLoop c G kout m).q = m.q ∧
      (retreatLoop c G kout m).x_prev = m.x_prev ∧
      (retreatLoop c G kout m).Z_prev = m.Z_prev ∧
      (retreatLoop c G kout m).q_prev = m.q_prev ∧
      (retreatLoop c G kout m).p = m.p ∧
      (retreatLoop c G kout m).rp = m.rp ∧
      (retreatLoop c G kout m).x_tape = m.x_tape ∧
      (retreatLoop c G kout m).Z_tape = m.Z_tape ∧
      (retreatLoop c G kout m).Z = m.Z := by
    intro n
    induction n with
    | zero =>
      intro m h
      rw [retreatLoop, if_neg (by omega)]
      exact ⟨rfl, rfl, rfl, rfl, rfl, rfl, rfl, rfl, rfl, rfl, rfl⟩
    | succ n ih =>
      intro m h
      by_cases hk : kout < m.k
      · rw [retreatLoop, if_pos hk]
        have hb : (retreatStep c G m).k ≤ n := by
          rw [retreatStep_k]
          omega
        have h1 := ih (retreatStep c G m) hb
        have h2 := retreatStep_frame c G m
        exact ⟨h1.1.trans h2.1, h1.2.1.trans h2.2.1, h1.2.2.1.trans h2.2.2.1,
          h1.2.2.2.1.trans h2.2.2.2.1, h1.2.2.2.2.1.trans h2.2.2.2.2.1,
          h1.2.2.2.2.2.1.trans h2.2.2.2.2.2.1,
          h1.2.2.2.2.2.2.1.trans h2.2.2.2.2.2.2.1,
          h1.2.2.2.2.2.2.2.1.trans h2.2.2.2.2.2.2.2.1,
          h1.2.2.2.2.2.2.2.2.1.trans h2.2.2.2.2.2.2.2.2.1,
          h1.2.2.2.2.2.2.2.2.2.1.trans h2.2.2.2.2.2.2.2.2.2.1,
          h1.2.2.2.2.2.2.2.2.2.2.trans h2.2.2.2.2.2.2.2.2.2.2⟩
      · rw [retreatLoop, if_neg hk]
        exact ⟨rfl, rfl, rfl, rfl, rfl, rfl, rfl, rfl, rfl, rfl, rfl⟩
  exact key m.k m le_rfl

theorem retreatLoop_reads (c : FsConfig) (G : OracleG) (kout : Nat)
    (m : FsMem) :
    (retreatLoop c G kout m).tapeReads =
      m.tapeReads ++ (List.range' kout (m.k - kout)).reverse := by
  have key : ∀ (n : Nat) (m : FsMem), m.k ≤ n →
      (retreatLoop c G kout m).tapeReads =
        m.tapeReads ++ (List.range' kout (m.k - kout)).reverse := by
    intro n
    induction n with
    | zero =>
      intro m h
      rw [retreatLoop, if_neg (by omega)]
      have : m.k - kout = 0 := by omega
      simp [this]
    | succ n ih =>
      intro m h
      by_cases hk : kout < m.k
      · rw [retreatLoop, if_pos hk]
        have hb : (retreatStep c G m).k ≤ n := by
          rw [retreatStep_k]
          omega
        rw [ih (retreatStep c G m) hb]
        have hreads : (retreatStep c G m).tapeReads = m.tapeReads ++ [m.k - 1] :=
          rfl
        have hstep : (retreatStep c G m).k = m.k - 1 := rfl
        rw [hreads, hstep]
        have hsplit : m.k - kout = (m.k - 1 - kout) + 1 := by omega
        rw [hsplit, List.range'_concat]
        have harith : kout + 1 * (m.k - 1 - kout) = m.k - 1 := by omega
        rw [List.reverse_append, harith]
        simp
      · rw [retreatLoop, if_neg hk]
        have : m.k - kout = 0 := by omega
        simp [this]
  exact key m.k m le_rfl

/-- C3: the discrete targets of `advance`/`retreat` and their loops.
Whenever the assertion `k_out>=0` of `advance` passes, its target
equals `ceil((t-t0)/h)` clamped to `[0, nk]`, and dually for `retreat`
with `floor`; `advance` then iterates exactly while `k < k_out`
(final counter `max k k_out`), `retreat` iterates exactly while
`k > k_out` (final counter `min k k_out`), decrementing `k` before
each backward step so the tape indices consumed are
`k-1, k-2, ..., k_out` in that order. -/
theorem fixed_step_targets_and_loops :
    (∀ (c : FsConfig) (t : ℚ), 0 ≤ advanceKout c t →
        advanceKout c t =
          max 0 (min (Int.ceil ((t - c.gridFront) / c.h)) (c.nk : Int))) ∧
    (∀ (c : FsConfig) (t : ℚ), retreatKout c t ≤ (c.nk : Int) →
        retreatKout c t =
          min (c.nk : Int) (max (Int.floor ((t - c.gridFront) / c.h)) 0)) ∧
    (∀ (c : FsConfig) (F : OracleF) (m : FsMem) (t : ℚ),
        0 ≤ advanceKout c t →
        ∃ r, advance c F m t = some r ∧
          r.1.k = max m.k (advanceKout c t).toNat) ∧
    (∀ (c : FsConfig) (G : OracleG) (m : FsMem) (t : ℚ),
        retreatKout c t ≤ (c.nk : Int) →
        ∃ r, retreat c G m t = some r ∧
          r.1.k = min m.k (retreatKout c t).toNat ∧
          r.1.tapeReads = m.tapeReads ++
            (List.range' (retreatKout c t).toNat
              (m.k - (retreatKout c t).toNat)).reverse) := by
  refine ⟨?_, ?_, ?_, ?_⟩
  · intro c t h
    exact (max_eq_right h).symm
  · intro c t h
    exact (min_eq_right h).symm
  · intro c F m t h
    refine ⟨(advanceLoop c F (advanceKout c t).toNat m,
      ((advanceLoop c F (advanceKout c t).toNat m).x.take c.nx,
        ((advanceLoop c F (advanceKout c t).toNat m).Z.drop
          (c.nZ - c.nz)).take c.nz,
        (advanceLoop c F (advanceKout c t).toNat m).q.take c.nq)), ?_, ?_⟩
    · simp only [advance]
      rw [if_neg (not_lt.mpr h)]
    · exact advanceLoop_k c F (advanceKout c t).toNat m
  · intro c G m t h
    refine ⟨(retreatLoop c G (retreatKout c t).toNat m,
      ((retreatLoop c G (retreatKout c t).toNat m).rx.take c.nrx,
        ((retreatLoop c G (retreatKout c t).toNat m).RZ.drop
          (c.nRZ - c.nrz)).take c.nrz,
        (retreatLoop c G (retreatKout c t).toNat m).rq.take c.nrq)),
      ?_, ?_, ?_⟩
    · simp only [retreat]
      rw [if_neg (not_lt.mpr h)]
    · exact retreatLoop_k c G (retreatKout c t).toNat m
    · exact retreatLoop_reads c G (retreatKout c t).toNat m

/-- Concrete witness configuration: one dense scalar state, quadrature,
parameter and backward state, no algebraic variables, one finite
element on the horizon `[0, 1]`. -/
def Wc : FsConfig where
  nx := 1
  nz := 0
  nq := 1
  np := 1
  nrx := 1
  nrz := 0
  nrp := 1
  nrq := 1
  nZ := 0
  nRZ := 0
  nk := 1
  gridFront := 0
  gridBack := 1

/-- Concrete forward discrete dynamics for witnesses. -/
def WF : OracleF := fun _ _ _ _ => ([Dbl.val 2], [], [Dbl.val 3])

/-- Concrete backward discrete dynamics for witnesses. -/
def WG : OracleG := fun _ _ _ _ _ _ _ => ([Dbl.val 5], [], [Dbl.val 7])

/-- Concrete freshly allocated runtime memory for witnesses. -/
def Wm : FsMem := initMemory Wc

/-- Witness for C3 at the concrete configuration `Wc`. -/
theorem fixed_step_targets_and_loops_witness :
    (advanceKout Wc 1 =
      max 0 (min (Int.ceil (((1 : ℚ) - Wc.gridFront) / Wc.h)) (Wc.nk : Int))) ∧
    (∃ r, advance Wc WF Wm 1 = some r ∧
      r.1.k = max Wm.k (advanceKout Wc 1).toNat) ∧
    (∃ r, retreat Wc WG { Wm with k := 1 } 0 = some r ∧
      r.1.k = min ({ Wm with k := 1 } : FsMem).k (retreatKout Wc 0).toNat ∧
      r.1.tapeReads = ({ Wm with k := 1 } : FsMem).tapeReads ++
        (List.range' (retreatKout Wc 0).toNat
          (({ Wm with k := 1 } : FsMem).k - (retreatKout Wc 0).toNat)).reverse) :=
  ⟨fixed_step_targets_and_loops.1 Wc 1
      (by norm_num [advanceKout, advanceKoutRaw, FsConfig.h, Wc]),
   fixed_step_targets_and_loops.2.2.1 Wc WF Wm 1
      (by norm_num [advanceKout, advanceKoutRaw, FsConfig.h, Wc]),
   fixed_step_targets_and_loops.2.2.2 Wc WG { Wm with k := 1 } 0
      (by norm_num [retreatKout, retreatKoutRaw, FsConfig.h, Wc])⟩

/-- C10: neither stepping direction mutates the other leg's state.
The whole mutation of `advance` is its stepping loop, which leaves the
backward-state fields and both parameter vectors unchanged; the whole
mutation of `retreat` is its loop, which leaves the forward-state
fields, both parameter vectors, and both tapes unchanged.  The last
two conjuncts restate this for the full `advance`/`retreat` calls. -/
theorem advance_retreat_frames :
    (∀ (c : FsConfig) (F : OracleF) (kout : Nat) (m : FsMem),
        (advanceLoop c F kout m).rx = m.rx ∧
        (advanceLoop c F kout m).rz = m.rz ∧
        (advanceLoop c F kout m).rq = m.rq ∧
        (advanceLoop c F kout m).rx_prev = m.rx_prev ∧
        (advanceLoop c F kout m).RZ_prev = m.RZ_prev ∧
        (advanceLoop c F kout m).rq_prev = m.rq_prev ∧
        (advanceLoop c F kout m).p = m.p ∧
        (advanceLoop c F kout m).rp = m.rp) ∧
    (∀ (c : FsConfig) (G : OracleG) (kout : Nat) (m : FsMem),
        (retreatLoop c G kout m).x = m.x ∧
        (retreatLoop c G kout m).z = m.z ∧
        (retreatLoop c G kout m).q = m.q ∧
        (retreatLoop c G kout m).x_prev = m.x_prev ∧
        (retreatLoop c G kout m).Z_prev = m.Z_prev ∧
        (retreatLoop c G kout m).q_prev = m.q_prev ∧
        (retreatLoop c G kout m).p = m.p ∧
        (retreatLoop c G kout m).rp = m.rp ∧
        (retreatLoop c G kout m).x_tape = m.x_tape ∧
        (retreatLoop c G kout m).Z_tape = m.Z_tape) ∧
    (∀ (c : FsConfig) (F : OracleF) (m : FsMem) (t : ℚ)
        (r : FsMem × (List Dbl × List Dbl × List Dbl)),
        advance c F m t = some r →
        r.1.rx = m.rx ∧ r.1.rz = m.rz ∧ r.1.rq = m.rq ∧
        r.1.rx_prev = m.rx_prev ∧ r.1.RZ_prev = m.RZ_prev ∧
        r.1.rq_prev = m.rq_prev ∧ r.1.p = m.p ∧ r.1.rp = m.rp) ∧
    (∀ (c : FsConfig) (G : OracleG) (m : FsMem) (t : ℚ)
        (r : FsMem × (List Dbl × List Dbl × List Dbl)),
        retreat c G m t = some r →
        r.1.x = m.x ∧ r.1.z = m.z ∧ r.1.q = m.q ∧
        r.1.x_prev = m.x_prev ∧ r.1.Z_prev = m.Z_prev ∧
        r.1.q_prev = m.q_prev ∧ r.1.p = m.p ∧ r.1.rp = m.rp ∧
        r.1.x_tape = m.x_tape ∧ r.1.Z_tape = m.Z_tape) := by
  refine ⟨?_, ?_, ?_, ?_⟩
  · intro c F kout m
    have h := advanceLoop_frame c F kout m
    exact ⟨h.1, h.2.1, h.2.2.1, h.2.2.2.1, h.2.2.2.2.1, h.2.2.2.2.2.1,
      h.2.2.2.2.2.2.1, h.2.2.2.2.2.2.2.1⟩
  · intro c G kout m
    have h := retreatLoop_frame c G kout m
    exact ⟨h.1, h.2.1, h.2.2.1, h.2.2.2.1, h.2.2.2.2.1, h.2.2.2.2.2.1,
      h.2.2.2.2.2.2.1, h.2.2.2.2.2.2.2.1, h.2.2.2.2.2.2.2.2.1,
      h.2.2.2.2.2.2.2.2.2.1⟩
  · intro c F m t r hr
    simp only [advance] at hr
    split at hr
    · exact absurd hr (by simp)
    · cases hr
      have h := advanceLoop_frame c F (advanceKout c t).toNat m
      exact ⟨h.1, h.2.1, h.2.2.1, h.2.2.2.1, h.2.2.2.2.1, h.2.2.2.2.2.1,
        h.2.2.2.2.2.2.1, h.2.2.2.2.2.2.2.1⟩
  · intro c G m t r hr
    simp only [retreat] at hr
    split at hr
    · exact absurd hr (by simp)
    · cases hr
      have h := retreatLoop_frame c G (retreatKout c t).toNat m
      exact ⟨h.1, h.2.1, h.2.2.1, h.2.2.2.1, h.2.2.2.2.1, h.2.2.2.2.2.1,
        h.2.2.2.2.2.2.1, h.2.2.2.2.2.2.2.1, h.2.2.2.2.2.2.2.2.1,
        h.2.2.2.2.2.2.2.2.2.1⟩

/-- Result of the witness call `advance Wc WF Wm 1`. -/
def WrAdv : FsMem × (List Dbl × List Dbl × List Dbl) :=
  (advanceLoop Wc WF (advanceKout Wc 1).toNat Wm,
   ((advanceLoop Wc WF (advanceKout Wc 1).toNat Wm).x.take Wc.nx,
    ((advanceLoop Wc WF (advanceKout Wc 1).toNat Wm).Z.drop
      (Wc.nZ - Wc.nz)).take Wc.nz,
    (advanceLoop Wc WF (advanceKout Wc 1).toNat Wm).q.take Wc.nq))

/-- Witness memory positioned at the end of the horizon. -/
def WmB : FsMem := { Wm with k := 1 }

/-- Result of the witness call `retreat Wc WG WmB 0`. -/
def WrRet : FsMem × (List Dbl × List Dbl × List Dbl) :=
  (retreatLoop Wc WG (retreatKout Wc 0).toNat WmB,
   ((retreatLoop Wc WG (retreatKout Wc 0).toNat WmB).rx.take Wc.nrx,
    ((retreatLoop Wc WG (retreatKout Wc 0).toNat WmB).RZ.drop
      (Wc.nRZ - Wc.nrz)).take Wc.nrz,
    (retreatLoop Wc WG (retreatKout Wc 0).toNat WmB).rq.take Wc.nrq))

/-- Witness for C10 at the concrete configuration `Wc`. -/
theorem advance_retreat_frames_witness :
    advance Wc WF Wm 1 = some WrAdv ∧ WrAdv.1.rx = Wm.rx ∧
    WrAdv.1.p = Wm.p ∧
    retreat Wc WG WmB 0 = some WrRet ∧ WrRet.1.x = WmB.x ∧
    WrRet.1.x_tape = WmB.x_tape := by
  have hA : advance Wc WF Wm 1 = some WrAdv := by
    simp only [advance, WrAdv]
    rw [if_neg (not_lt.mpr
      (by norm_num [advanceKout, advanceKoutRaw, FsConfig.h, Wc]))]
  have hR : retreat Wc WG WmB 0 = some WrRet := by
    simp only [retreat, WrRet]
    rw [if_neg (not_lt.mpr
      (by norm_num [retreatKout, retreatKoutRaw, FsConfig.h, Wc]))]
  have h3 := advance_retreat_frames.2.2.1 Wc WF Wm 1 WrAdv hA
  have h4 := advance_retreat_frames.2.2.2 Wc WG WmB 0 WrRet hR
  exact ⟨hA, h3.1, h3.2.2.2.2.2.2.1, hR, h4.1, h4.2.2.2.2.2.2.2.2.1⟩

theorem copyN_eq (src dst : List Dbl) (n : Nat) (h1 : src.length = n)
    (h2 : dst.length = n) : copyN src dst n = src := by
  unfold copyN
  rw [← h1, List.take_length,
    List.drop_eq_nil_of_le (le_of_eq (h2.trans h1.symm))]
  simp

theorem fillN_eq (dst : List Dbl) (n : Nat) (v : Dbl)
    (h : dst.length = n) : fillN dst n v = List.replicate n v := by
  unfold fillN
  rw [List.drop_eq_nil_of_le (le_of_eq h)]
  simp

theorem getD_set_self {α : Type} :
    ∀ (l : List α) (i : Nat) (v d : α), i < l.length →
      (l.set i v).getD i d = v
  | [], _, _, _, h => absurd h (by simp)
  | _ :: _, 0, _, _, _ => rfl
  | a :: l, i + 1, v, d, h => by
    have hcast : ((a :: l).set (i + 1) v).getD (i + 1) d =
        (l.set i v).getD i d := rfl
    rw [hcast]
    exact getD_set_self l i v d (by simpa using h)

theorem getD_set_ne {α : Type} :
    ∀ (l : List α) (i j : Nat) (v d : α), i ≠ j →
      (l.set i v).getD j d = l.getD j d
  | [], _, _, _, _, _ => rfl
  | _ :: _, 0, 0, _, _, h => absurd rfl h
  | _ :: _, 0, _ + 1, _, _, _ => rfl
  | _ :: _, _ + 1, 0, _, _, _ => rfl
  | a :: l, i + 1, j + 1, v, d, h => by
    have hcast : ((a :: l).set (i + 1) v).getD (j + 1) d =
        (l.set i v).getD j d := rfl
    rw [hcast]
    exact (getD_set_ne l i j v d (fun hc => h (by rw [hc]))).trans rfl

/-- C4: after `FixedStepIntegrator::reset(mem, t, x0, z0, p)` the time
is `t`, the `x0`/`z0`/`p` inputs are copied into runtime memory, every
quadrature entry is 0, the step counter is 0, `Z` is entirely NaN,
tape position 0 holds `x0` when `nrx > 0`, and no other
runtime-memory field changes. -/
theorem reset_establishes :
    ∀ (c : FsConfig) (m : FsMem) (t : ℚ) (x0 z0 p : List Dbl),
      x0.length = c.nx → z0.length = c.nz → p.length = c.np →
      m.x.length = c.nx → m.z.length = c.nz → m.p.length = c.np →
      m.q.length = c.nq →
      (0 < c.nrx → 0 < m.x_tape.length ∧
        (m.x_tape.getD 0 []).length = c.nx) →
      (reset c m t x0 z0 p).t = t ∧
      (reset c m t x0 z0 p).x = x0 ∧
      (reset c m t x0 z0 p).z = z0 ∧
      (reset c m t x0 z0 p).p = p ∧
      (reset c m t x0 z0 p).q = List.replicate c.nq dzero ∧
      (reset c m t x0 z0 p).k = 0 ∧
      (reset c m t x0 z0 p).Z = List.replicate m.Z.length Dbl.nan ∧
      (0 < c.nrx → (reset c m t x0 z0 p).x_tape.getD 0 [] = x0) ∧
      (¬ 0 < c.nrx → (reset c m t x0 z0 p).x_tape = m.x_tape) ∧
      (∀ i, i ≠ 0 →
        (reset c m t x0 z0 p).x_tape.getD i [] = m.x_tape.getD i []) ∧
      (reset c m t x0 z0 p).rx = m.rx ∧
      (reset c m t x0 z0 p).rz = m.rz ∧
      (reset c m t x0 z0 p).rp = m.rp ∧
      (reset c m t x0 z0 p).rq = m.rq ∧
      (reset c m t x0 z0 p).x_prev = m.x_prev ∧
      (reset c m t x0 z0 p).Z_prev = m.Z_prev ∧
      (reset c m t x0 z0 p).q_prev = m.q_prev ∧
      (reset c m t x0 z0 p).rx_prev = m.rx_prev ∧
      (reset c m t x0 z0 p).RZ_prev = m.RZ_prev ∧
      (reset c m t x0 z0 p).rq_prev = m.rq_prev ∧
      (reset c m t x0 z0 p).RZ = m.RZ ∧
      (reset c m t x0 z0 p).Z_tape = m.Z_tape := by
  intro c m t x0 z0 p hx0 hz0 hp hmx hmz hmp hmq htape
  refine ⟨rfl, copyN_eq x0 m.x c.nx hx0 hmx, copyN_eq z0 m.z c.nz hz0 hmz,
    copyN_eq p m.p c.np hp hmp, fillN_eq m.q c.nq dzero hmq, rfl,
    fillN_eq m.Z m.Z.length Dbl.nan rfl, ?_, ?_, ?_,
    rfl, rfl, rfl, rfl, rfl, rfl, rfl, rfl, rfl, rfl, rfl, rfl⟩
  · intro h
    show (if 0 < c.nrx then
        m.x_tape.set 0 (copyN x0 (m.x_tape.getD 0 []) c.nx)
      else m.x_tape).getD 0 [] = x0
    rw [if_pos h, getD_set_self m.x_tape 0 _ [] (htape h).1,
      copyN_eq x0 (m.x_tape.getD 0 []) c.nx hx0 (htape h).2]
  · intro h
    show (if 0 < c.nrx then
        m.x_tape.set 0 (copyN x0 (m.x_tape.getD 0 []) c.nx)
      else m.x_tape) = m.x_tape
    rw [if_neg h]
  · intro i hi
    show (if 0 < c.nrx then
        m.x_tape.set 0 (copyN x0 (m.x_tape.getD 0 []) c.nx)
      else m.x_tape).getD i [] = m.x_tape.getD i []
    by_cases h : 0 < c.nrx
    · rw [if_pos h]
      exact getD_set_ne m.x_tape 0 i _ [] (fun hc => hi hc.symm)
    · rw [if_neg h]

/-- Witness for C4 at the concrete configuration `Wc`. -/
theorem reset_establishes_witness :
    (reset Wc Wm 0 [Dbl.val 9] [] [Dbl.val 4]).x = [Dbl.val 9] ∧
    (reset Wc Wm 0 [Dbl.val 9] [] [Dbl.val 4]).k = 0 ∧
    (reset Wc Wm 0 [Dbl.val 9] [] [Dbl.val 4]).x_tape.getD 0 [] =
      [Dbl.val 9] := by
  have h := reset_establishes Wc Wm 0 [Dbl.val 9] [] [Dbl.val 4]
    (by decide) (by decide) (by decide) (by decide) (by decide) (by decide)
    (by decide) (by decide)
  exact ⟨h.2.1, h.2.2.2.2.2.1, h.2.2.2.2.2.2.2.1 (by decide)⟩

/-- `ntout_ = output_t0_ ? ngrid_ : ngrid_-1` (Integrator::init,
line 274): the number of output columns of the trajectory outputs. -/
def ntout (outputT0 : Bool) (ngrid : Nat) : Nat :=
  if outputT0 then ngrid else ngrid - 1

/-- The forward loop of `Integrator::eval` specialized to a
`FixedStepIntegrator`: advance to each remaining target in turn,
collecting the differential-state output column of each advance. -/
def evalForwardGo (c : FsConfig) (F : OracleF) :
    List ℚ → FsMem → Option (List (List Dbl))
  | [], _ => some []
  | t :: rest, m =>
    match advance c F m t with
    | none => none
    | some r => (evalForwardGo c F rest r.1).map fun cols => r.2.1 :: cols

/-- `Integrator::eval` (forward leg) over a `FixedStepIntegrator`:
`reset` at `grid.front()` on freshly initialized memory, then one
`advance` per output time (all grid points when `output_t0`, else the
tail), returning the list of differential-state output columns. -/
def evalForward (c : FsConfig) (F : OracleF) (grid : List ℚ)
    (outputT0 : Bool) (x0 z0 p : List Dbl) : Option (List (List Dbl)) :=
  evalForwardGo c F (if outputT0 then grid else grid.drop 1)
    (reset c (initMemory c) grid.headI x0 z0 p)

/-- C5: with `output_t0 = true` and `grid = [0, 1/2, 1]`, the
differential-state trajectory has exactly 3 columns (one per grid
point, matching `ntout`), the advance to the initial grid point has
discrete target 0 (zero steps), and column 0 is the supplied initial
condition `x0` unmodified. -/
theorem output_t0_three_columns :
    ∀ (c : FsConfig) (F : OracleF) (x0 z0 p : List Dbl),
      c.gridFront = 0 → c.gridBack = 1 → x0.length = c.nx →
      advanceKout c 0 = 0 ∧
      ∃ cols, evalForward c F [0, 1/2, 1] true x0 z0 p = some cols ∧
        cols.length = 3 ∧
        cols.length = ntout true ([0, 1/2, 1] : List ℚ).length ∧
        cols.getD 0 [] = x0 := by
  intro c F x0 z0 p hf hb hx
  have hh : 0 ≤ c.h := by
    rw [FsConfig.h, hf, hb]
    positivity
  have hk0 : advanceKout c 0 = 0 := by
    unfold advanceKout advanceKoutRaw
    rw [hf, sub_zero]
    norm_num
  have hnonneg : ∀ t : ℚ, 0 ≤ t → 0 ≤ advanceKout c t := by
    intro t ht
    unfold advanceKout advanceKoutRaw
    have h1 : (0 : ℚ) ≤ (t - c.gridFront) / c.h := by
      apply div_nonneg _ hh
      rw [hf, sub_zero]
      exact ht
    exact le_min (Int.ceil_nonneg h1) (Int.natCast_nonneg _)
  refine ⟨hk0, ?_⟩
  set m0 := reset c (initMemory c) (([0, 1/2, 1] : List ℚ).headI) x0 z0 p
    with hm0def
  have hm0x : m0.x = x0 :=
    copyN_eq x0 (initMemory c).x c.nx hx (by simp [initMemory])
  have hcol0 : m0.x.take c.nx = x0 := by
    rw [hm0x, ← hx, List.take_length]
  have h1 : advance c F m0 0 =
      some (m0, (m0.x.take c.nx, (m0.Z.drop (c.nZ - c.nz)).take c.nz,
        m0.q.take c.nq)) := by
    simp only [advance]
    rw [if_neg (not_lt.mpr (hnonneg 0 le_rfl)), hk0]
    have hloop : advanceLoop c F (Int.toNat 0) m0 = m0 := by
      rw [advanceLoop, if_neg (by simp [m0, reset])]
    rw [hloop]
  have hsome : ∀ (t : ℚ) (m : FsMem), 0 ≤ t →
      ∃ r, advance c F m t = some r := by
    intro t m ht
    refine ⟨(advanceLoop c F (advanceKout c t).toNat m,
      ((advanceLoop c F (advanceKout c t).toNat m).x.take c.nx,
       ((advanceLoop c F (advanceKout c t).toNat m).Z.drop
         (c.nZ - c.nz)).take c.nz,
       (advanceLoop c F (advanceKout c t).toNat m).q.take c.nq)), ?_⟩
    simp only [advance]
    rw [if_neg (not_lt.mpr (hnonneg t ht))]
  obtain ⟨r2, hr2⟩ := hsome (1/2) m0 (by norm_num)
  obtain ⟨r3, hr3⟩ := hsome 1 r2.1 (by norm_num)
  refine ⟨(m0.x.take c.nx) :: r2.2.1 :: r3.2.1 :: [], ?_, rfl, rfl, ?_⟩
  · unfold evalForward
    rw [if_pos rfl]
    rw [← hm0def]
    simp only [evalForwardGo, h1, hr2, hr3]
    simp
  · simpa using hcol0

/-- Witness for C5 at the concrete configuration `Wc`. -/
theorem output_t0_three_columns_witness :
    advanceKout Wc 0 = 0 ∧
    ∃ cols, evalForward Wc WF [0, 1/2, 1] true [Dbl.val 9] [] [Dbl.val 4] =
        some cols ∧
      cols.length = 3 ∧
      cols.length = ntout true ([0, 1/2, 1] : List ℚ).length ∧
      cols.getD 0 [] = [Dbl.val 9] :=
  output_t0_three_columns Wc WF [Dbl.val 9] [] [Dbl.val 4]
    rfl rfl (by decide)

theorem advanceStep_tapes_of_no_backward (c : FsConfig) (F : OracleF)
    (m : FsMem) (h : c.nrx = 0) :
    (advanceStep c F m).x_tape = m.x_tape ∧
    (advanceStep c F m).Z_tape = m.Z_tape := by
  constructor
  · show (if 0 < c.nrx then
        m.x_tape.set (m.k + 1)
          (copyN (F m.t (copyN m.x m.x_prev c.nx) (copyN m.Z m.Z_prev c.nZ)
            m.p).1 (m.x_tape.getD (m.k + 1) []) c.nx)
      else m.x_tape) = m.x_tape
    rw [if_neg (by omega)]
  · show (if 0 < c.nrx then
        m.Z_tape.set m.k
          (copyN (F m.t (copyN m.x m.x_prev c.nx) (copyN m.Z m.Z_prev c.nZ)
            m.p).2.1 (m.Z_tape.getD m.k []) c.nZ)
      else m.Z_tape) = m.Z_tape
    rw [if_neg (by omega)]

theorem advanceLoop_tapes_of_no_backward (c : FsConfig) (F : OracleF)
    (kout : Nat) (m : FsMem) (h : c.nrx = 0) :
    (advanceLoop c F kout m).x_tape = m.x_tape ∧
    (advanceLoop c F kout m).Z_tape = m.Z_tape := by
  have key : ∀ (n : Nat) (m : FsMem), kout - m.k ≤ n →
      (advanceLoop c F kout m).x_tape = m.x_tape ∧
      (advanceLoop c F kout m).Z_tape = m.Z_tape := by
    intro n
    induction n with
    | zero =>
      intro m hn
      rw [advanceLoop, if_neg (by omega)]
      exact ⟨rfl, rfl⟩
    | succ n ih =>
      intro m hn
      by_cases hk : m.k < kout
      · rw [advanceLoop, if_pos hk]
        have hb : kout - (advanceStep c F m).k ≤ n := by
          rw [advanceStep_k]
          omega
        have h1 := ih (advanceStep c F m) hb
        have h2 := advanceStep_tapes_of_no_backward c F m h
        exact ⟨h1.1.trans h2.1, h1.2.trans h2.2⟩
      · rw [advanceLoop, if_neg hk]
        exact ⟨rfl, rfl⟩
  exact key (kout - m.k) m le_rfl

/-- C6: tape shape and write discipline.  `init_memory` allocates, only
when `nrx > 0`, a differential tape of `nk+1` entries of size `nx` and
an algebraic tape of `nk` entries of size `nZ` (empty tapes when
`nrx = 0`); one advance step with counter `k` writes the new
differential state to tape index `k+1` and the new algebraic solution
to tape index `k`, leaving all other entries unchanged; when `nrx = 0`
the advance loop never touches the tapes; and the retreat loop never
writes either tape. -/
theorem tape_shape_and_writes :
    (∀ c : FsConfig, 0 < c.nrx →
        (initMemory c).x_tape.length = c.nk + 1 ∧
        (∀ e ∈ (initMemory c).x_tape, e.length = c.nx) ∧
        (initMemory c).Z_tape.length = c.nk ∧
        (∀ e ∈ (initMemory c).Z_tape, e.length = c.nZ)) ∧
    (∀ c : FsConfig, c.nrx = 0 →
        (initMemory c).x_tape = [] ∧ (initMemory c).Z_tape = []) ∧
    (∀ (c : FsConfig) (F : OracleF) (m : FsMem), 0 < c.nrx →
        m.k + 1 < m.x_tape.length → m.k < m.Z_tape.length →
        (m.x_tape.getD (m.k + 1) []).length = c.nx →
        (m.Z_tape.getD m.k []).length = c.nZ →
        (F m.t (copyN m.x m.x_prev c.nx) (copyN m.Z m.Z_prev c.nZ)
          m.p).1.length = c.nx →
        (F m.t (copyN m.x m.x_prev c.nx) (copyN m.Z m.Z_prev c.nZ)
          m.p).2.1.length = c.nZ →
        (advanceStep c F m).x_tape.getD (m.k + 1) [] = (advanceStep c F m).x ∧
        (∀ i, i ≠ m.k + 1 →
          (advanceStep c F m).x_tape.getD i [] = m.x_tape.getD i []) ∧
        (advanceStep c F m).Z_tape.getD m.k [] = (advanceStep c F m).Z ∧
        (∀ i, i ≠ m.k →
          (advanceStep c F m).Z_tape.getD i [] = m.Z_tape.getD i [])) ∧
    (∀ (c : FsConfig) (F : OracleF) (kout : Nat) (m : FsMem), c.nrx = 0 →
        (advanceLoop c F kout m).x_tape = m.x_tape ∧
        (advanceLoop c F kout m).Z_tape = m.Z_tape) ∧
    (∀ (c : FsConfig) (G : OracleG) (kout : Nat) (m : FsMem),
        (retreatLoop c G kout m).x_tape = m.x_tape ∧
        (retreatLoop c G kout m).Z_tape = m.Z_tape) := by
  refine ⟨?_, ?_, ?_, ?_, ?_⟩
  · intro c h
    refine ⟨?_, ?_, ?_, ?_⟩
    · simp [initMemory, if_pos h]
    · intro e he
      simp only [initMemory, if_pos h] at he
      rw [List.eq_of_mem_replicate he]
      simp
    · simp [initMemory, if_pos h]
    · intro e he
      simp only [initMemory, if_pos h] at he
      rw [List.eq_of_mem_replicate he]
      simp
  · intro c h
    constructor
    · simp [initMemory]
      omega
    · simp [initMemory]
      omega
  · intro c F m h hlx hlz hex hez hfx hfz
    refine ⟨?_, ?_, ?_, ?_⟩
    · show (if 0 < c.nrx then
          m.x_tape.set (m.k + 1)
            (copyN (F m.t (copyN m.x m.x_prev c.nx) (copyN m.Z m.Z_prev c.nZ)
              m.p).1 (m.x_tape.getD (m.k + 1) []) c.nx)
        else m.x_tape).getD (m.k + 1) [] = (advanceStep c F m).x
      rw [if_pos h, getD_set_self m.x_tape (m.k + 1) _ [] hlx]
      exact copyN_eq _ _ c.nx hfx hex
    · intro i hi
      show (if 0 < c.nrx then
          m.x_tape.set (m.k + 1)
            (copyN (F m.t (copyN m.x m.x_prev c.nx) (copyN m.Z m.Z_prev c.nZ)
              m.p).1 (m.x_tape.getD (m.k + 1) []) c.nx)
        else m.x_tape).getD i [] = m.x_tape.getD i []
      rw [if_pos h]
      exact getD_set_ne m.x_tape (m.k + 1) i _ [] (fun hc => hi hc.symm)
    · show (if 0 < c.nrx then
          m.Z_tape.set m.k
            (copyN (F m.t (copyN m.x m.x_prev c.nx) (copyN m.Z m.Z_prev c.nZ)
              m.p).2.1 (m.Z_tape.getD m.k []) c.nZ)
        else m.Z_tape).getD m.k [] = (advanceStep c F m).Z
      rw [if_pos h, getD_set_self m.Z_tape m.k _ [] hlz]
      exact copyN_eq _ _ c.nZ hfz hez
    · intro i hi
      show (if 0 < c.nrx then
          m.Z_tape.set m.k
            (copyN (F m.t (copyN m.x m.x_prev c.nx) (copyN m.Z m.Z_prev c.nZ)
              m.p).2.1 (m.Z_tape.getD m.k []) c.nZ)
        else m.Z_tape).getD i [] = m.Z_tape.getD i []
      rw [if_pos h]
      exact getD_set_ne m.Z_tape m.k i _ [] (fun hc => hi hc.symm)
  · intro c F kout m h
    exact advanceLoop_tapes_of_no_backward c F kout m h
  · intro c G kout m
    have h := retreatLoop_frame c G kout m
    exact ⟨h.2.2.2.2.2.2.2.2.1, h.2.2.2.2.2.2.2.2.2.1⟩

/-- Witness for C6 at the concrete configuration `Wc`. -/
theorem tape_shape_and_writes_witness :
    (initMemory Wc).x_tape.length = Wc.nk + 1 ∧
    (initMemory Wc).Z_tape.length = Wc.nk ∧
    (advanceStep Wc WF Wm).x_tape.getD (Wm.k + 1) [] = (advanceStep Wc WF Wm).x := by
  have h1 := tape_shape_and_writes.1 Wc (by decide)
  have h3 := tape_shape_and_writes.2.2.1 Wc WF Wm (by decide) (by decide)
    (by decide) (by decide) (by decide) (by decide) (by decide)
  exact ⟨h1.1, h1.2.2.1, h3.1⟩

/-- Elementwise `dst[i] |= src[i]` over dependency bit-vectors. -/
def orInto (dst src : List Bool) : List Bool :=
  List.zipWith or dst src

/-- Outputs of `Integrator::sp_fwd`; a `none` marks an output the
function did not write (null result pointer semantics aside, `qf` is
written only when `nq_>0`, the backward outputs only when `nrx_>0`,
`rqf` only when additionally `nrq_>0`). -/
structure SpFwdOut where
  xf : List Bool
  zf : List Bool
  qf : Option (List Bool)
  rxf : Option (List Bool)
  rzf : Option (List Bool)
  rqf : Option (List Bool)
  deriving DecidableEq

/-- `Integrator::sp_fwd` (lines 462-541), with the oracle's four
dependency-propagation call sites and the two structural solves left
abstract: `Fdep (x0, p) = (ode, alg)` is the call at line 480 (args
`DE_X`, `DE_P`; results `DE_ODE`, `DE_ALG`); `Fquad (x, z, p)` the call
at line 501; `Gdep (x, z, p, rx, rp) = (rode, ralg)` the call at
line 516 (the dead store of `X0` to `DE_RX` at line 510 is immediately
overwritten by `RX0` at line 511); `Grquad (x, z, p, rx, rz, rp)` the
call at line 537; `solveDAE`/`solveRDAE` are
`sp_jac_dae_.spsolve(btf_jac_dae_, ..., false)` on the concatenated
differential/algebraic bit-vector and its backward analogue.  After
the first oracle call the `X0` taint is ORed into the differential
part (lines 481-484), and only then is the combined vector solved
(lines 487-489); the backward pass does the same with `RX0`
(lines 517-525). -/
def spFwd (nx nq nrx nrq : Nat)
    (Fdep : List Bool → List Bool → List Bool × List Bool)
    (Fquad : List Bool → List Bool → List Bool → List Bool)
    (Gdep : List Bool → List Bool → List Bool → List Bool → List Bool →
      List Bool × List Bool)
    (Grquad : List Bool → List Bool → List Bool → List Bool → List Bool →
      List Bool → List Bool)
    (solveDAE solveRDAE : List Bool → List Bool)
    (x0 p rx0 rp : List Bool) : SpFwdOut :=
  let f := Fdep x0 p
  let s := solveDAE (orInto f.1 x0 ++ f.2)
  let tx := s.take nx
  let tz := s.drop nx
  let qf := if 0 < nq then some (Fquad tx tz p) else none
  if 0 < nrx then
    let g := Gdep tx tz p rx0 rp
    let s2 := solveRDAE (orInto g.1 rx0 ++ g.2)
    let trx := s2.take nrx
    let trz := s2.drop nrx
    let rqf := if 0 < nrq then some (Grquad tx tz p trx trz rp) else none
    ⟨tx, tz, qf, some trx, some trz, rqf⟩
  else
    ⟨tx, tz, qf, none, none, none⟩

/-- C7: in `sp_fwd` the `X0` taint is ORed into the tentative
differential bits produced by the single oracle propagation, and only
afterwards is the combined vector passed through the structural solve;
what the solve returns is exactly what is written to `XF` and `ZF`,
and the backward pass follows the same OR-then-solve order on `RX0`
before writing `RXF` and `RZF`. -/
theorem sp_fwd_or_then_solve :
    ∀ (nx nq nrx nrq : Nat)
      (Fdep : List Bool → List Bool → List Bool × List Bool)
      (Fquad : List Bool → List Bool → List Bool → List Bool)
      (Gdep : List Bool → List Bool → List Bool → List Bool → List Bool →
        List Bool × List Bool)
      (Grquad : List Bool → List Bool → List Bool → List Bool → List Bool →
        List Bool → List Bool)
      (solveDAE solveRDAE : List Bool → List Bool)
      (x0 p rx0 rp : List Bool),
      (spFwd nx nq nrx nrq Fdep Fquad Gdep Grquad solveDAE solveRDAE
        x0 p rx0 rp).xf =
          (solveDAE (orInto (Fdep x0 p).1 x0 ++ (Fdep x0 p).2)).take nx ∧
      (spFwd nx nq nrx nrq Fdep Fquad Gdep Grquad solveDAE solveRDAE
        x0 p rx0 rp).zf =
          (solveDAE (orInto (Fdep x0 p).1 x0 ++ (Fdep x0 p).2)).drop nx ∧
      (0 < nrx →
        (spFwd nx nq nrx nrq Fdep Fquad Gdep Grquad solveDAE solveRDAE
          x0 p rx0 rp).rxf =
            some ((solveRDAE (orInto
              (Gdep ((solveDAE (orInto (Fdep x0 p).1 x0 ++ (Fdep x0 p).2)).take nx)
                ((solveDAE (orInto (Fdep x0 p).1 x0 ++ (Fdep x0 p).2)).drop nx)
                p rx0 rp).1 rx0 ++
              (Gdep ((solveDAE (orInto (Fdep x0 p).1 x0 ++ (Fdep x0 p).2)).take nx)
                ((solveDAE (orInto (Fdep x0 p).1 x0 ++ (Fdep x0 p).2)).drop nx)
                p rx0 rp).2)).take nrx) ∧
        (spFwd nx nq nrx nrq Fdep Fquad Gdep Grquad solveDAE solveRDAE
          x0 p rx0 rp).rzf =
            some ((solveRDAE (orInto
              (Gdep ((solveDAE (orInto (Fdep x0 p).1 x0 ++ (Fdep x0 p).2)).take nx)
                ((solveDAE (orInto (Fdep x0 p).1 x0 ++ (Fdep x0 p).2)).drop nx)
                p rx0 rp).1 rx0 ++
              (Gdep ((solveDAE (orInto (Fdep x0 p).1 x0 ++ (Fdep x0 p).2)).take nx)
                ((solveDAE (orInto (Fdep x0 p).1 x0 ++ (Fdep x0 p).2)).drop nx)
                p rx0 rp).2)).drop nrx)) := by
  intro nx nq nrx nrq Fdep Fquad Gdep Grquad solveDAE solveRDAE x0 p rx0 rp
  by_cases h : 0 < nrx
  · refine ⟨?_, ?_, fun _ => ⟨?_, ?_⟩⟩ <;> simp [spFwd, h]
  · refine ⟨?_, ?_, fun hc => absurd hc h⟩ <;> simp [spFwd, h]

/-- Witness for C7 at concrete bit-vectors and oracle abstractions. -/
theorem sp_fwd_or_then_solve_witness :
    (spFwd 2 1 1 0 (fun _ _ => ([false, true], [true]))
      (fun _ _ _ => [true]) (fun _ _ _ _ _ => ([false], []))
      (fun _ _ _ _ _ _ => []) (fun l => l) (fun l => l)
      [true, false] [false] [true] [false]).xf =
        ((fun (l : List Bool) => l)
          (orInto ((fun (_ _ : List Bool) =>
            (([false, true] : List Bool), ([true] : List Bool)))
              [true, false] [false]).1 [true, false] ++
            ((fun (_ _ : List Bool) =>
              (([false, true] : List Bool), ([true] : List Bool)))
              [true, false] [false]).2)).take 2 ∧
    (spFwd 2 1 1 0 (fun _ _ => ([false, true], [true]))
      (fun _ _ _ => [true]) (fun _ _ _ _ _ => ([false], []))
      (fun _ _ _ _ _ _ => []) (fun l => l) (fun l => l)
      [true, false] [false] [true] [false]).rxf = some [true] := by
  have h := sp_fwd_or_then_solve 2 1 1 0 (fun _ _ => ([false, true], [true]))
    (fun _ _ _ => [true]) (fun _ _ _ _ _ => ([false], []))
    (fun _ _ _ _ _ _ => []) (fun l => l) (fun l => l)
    [true, false] [false] [true] [false]
  refine ⟨h.1, ?_⟩
  rw [(h.2.2 (by decide)).1]
  decide

/-- The six argument bit-vectors of `Integrator::sp_rev`
(`INTEGRATOR_X0`, `INTEGRATOR_P`, `INTEGRATOR_Z0`, `INTEGRATOR_RX0`,
`INTEGRATOR_RP`, `INTEGRATOR_RZ0`). -/
structure SpRevArgs where
  x0 : List Bool
  p : List Bool
  z0 : List Bool
  rx0 : List Bool
  rp : List Bool
  rz0 : List Bool
  deriving DecidableEq

/-- The six result (seed) bit-vectors of `Integrator::sp_rev`. -/
structure SpRevRes where
  xf : List Bool
  zf : List Bool
  qf : List Bool
  rxf : List Bool
  rzf : List Bool
  rqf : List Bool
  deriving DecidableEq

/-- New values produced by the backward-quadrature reverse oracle call
of `sp_rev` (line 609): seed `DE_RQUAD` and the six wired argument
slots `DE_X`, `DE_Z`, `DE_P`, `DE_RX`, `DE_RZ`, `DE_RP`. -/
structure GQOut where
  rquad : List Bool
  x : List Bool
  z : List Bool
  p : List Bool
  rx : List Bool
  rz : List Bool
  rp : List Bool

/-- New values produced by the indirect-dependency backward reverse
oracle call of `sp_rev` (line 625): seeds `DE_RODE`/`DE_RALG` and the
wired argument slots `DE_X`, `DE_Z`, `DE_P`, `DE_RX` (pointing at
`rx0`; `DE_RZ` is null, line 624), `DE_RP`. -/
structure GIndOut where
  rode : List Bool
  ralg : List Bool
  x : List Bool
  z : List Bool
  p : List Bool
  rx : List Bool
  rp : List Bool

/-- New values produced by the forward-quadrature reverse oracle call
of `sp_rev` (line 635): seed `DE_QUAD` and arguments `DE_X`, `DE_Z`,
`DE_P`. -/
structure FQOut where
  quad : List Bool
  x : List Bool
  z : List Bool
  p : List Bool

/-- New values produced by the indirect-dependency forward reverse
oracle call of `sp_rev` (line 651): seeds `DE_ODE`/`DE_ALG` and the
wired argument slots `DE_X` (pointing at `x0`; `DE_Z` is null,
line 650) and `DE_P`. -/
structure FIndOut where
  ode : List Bool
  alg : List Bool
  x : List Bool
  p : List Bool

/-- Intermediate state after the backward block of `sp_rev`
(lines 573-626). -/
structure SpRevBack where
  tmpx : List Bool
  tmpz : List Bool
  p : List Bool
  rx0 : List Bool
  rp : List Bool
  rxf : List Bool
  rzf : List Bool
  rqf : List Bool

/-- `Integrator::sp_rev` (lines 543-654) with the four reverse oracle
call sites and the two transposed structural solves abstract.  The
seeds `xf`/`zf` are copied to temporaries and zeroed (lines 560-571);
when `nrx_>0` the backward block copies/zeroes `rxf`/`rzf`, runs the
backward-quadrature reverse call, the transposed backward structural
solve, the direct `rx0 |= tmp_rx` injection (line 617), and the
indirect backward reverse call with `DE_RX = rx0` and `DE_RZ` null;
the forward part runs the (guarded) quadrature reverse call, the
transposed forward solve, the direct `x0 |= tmp_x` injection
(line 643), and the indirect forward reverse call with `DE_X = x0` and
`DE_Z` null.  `arg[INTEGRATOR_Z0]` and `arg[INTEGRATOR_RZ0]` are wired
into no call and ORed into nowhere. -/
def spRev (nx nz nrx nrz nq : Nat)
    (solveDAEt solveRDAEt : List Bool → List Bool)
    (callGQ : List Bool → List Bool → List Bool → List Bool → List Bool →
      List Bool → List Bool → GQOut)
    (callGInd : List Bool → List Bool → List Bool → List Bool → List Bool →
      List Bool → List Bool → GIndOut)
    (callFQ : List Bool → List Bool → List Bool → List Bool → FQOut)
    (callFInd : List Bool → List Bool → List Bool → List Bool → FIndOut)
    (a : SpRevArgs) (r : SpRevRes) : SpRevArgs × SpRevRes :=
  let tx0 := r.xf
  let xfz : List Bool := List.replicate nx false
  let tz0 := r.zf
  let zfz : List Bool := List.replicate nz false
  let back : SpRevBack :=
    if 0 < nrx then
      let gq := callGQ r.rqf tx0 tz0 a.p r.rxf r.rzf a.rp
      let s := solveRDAEt (gq.rx ++ gq.rz)
      let trx := s.take nrx
      let trz := s.drop nrx
      let rx1 := orInto a.rx0 trx
      let gi := callGInd trx trz gq.x gq.z gq.p rx1 gq.rp
      ⟨gi.x, gi.z, gi.p, gi.rx, gi.rp,
        List.replicate nrx false, List.replicate nrz false, gq.rquad⟩
    else
      ⟨tx0, tz0, a.p, a.rx0, a.rp, r.rxf, r.rzf, r.rqf⟩
  let fq : List Bool × List Bool × List Bool × List Bool :=
    if 0 < nq then
      let o := callFQ r.qf back.tmpx back.tmpz back.p
      (o.quad, o.x, o.z, o.p)
    else (r.qf, back.tmpx, back.tmpz, back.p)
  let s := solveDAEt (fq.2.1 ++ fq.2.2.1)
  let tx := s.take nx
  let tz := s.drop nx
  let x1 := orInto a.x0 tx
  let fi := callFInd tx tz x1 fq.2.2.2
  (⟨fi.x, fi.p, a.z0, back.rx0, back.rp, a.rz0⟩,
   ⟨xfz, zfz, fq.1, back.rxf, back.rzf, back.rqf⟩)

/-- C8: `sp_rev` never writes a dependency bit into the
initial-algebraic-guess slots: whatever the oracle reverse calls and
the structural solves do, the `Z0` and `RZ0` argument vectors are
returned exactly as they were on entry. -/
theorem sp_rev_guess_frame :
    ∀ (nx nz nrx nrz nq : Nat)
      (solveDAEt solveRDAEt : List Bool → List Bool)
      (callGQ : List Bool → List Bool → List Bool → List Bool → List Bool →
        List Bool → List Bool → GQOut)
      (callGInd : List Bool → List Bool → List Bool → List Bool → List Bool →
        List Bool → List Bool → GIndOut)
      (callFQ : List Bool → List Bool → List Bool → List Bool → FQOut)
      (callFInd : List Bool → List Bool → List Bool → List Bool → FIndOut)
      (a : SpRevArgs) (r : SpRevRes),
      (spRev nx nz nrx nrz nq solveDAEt solveRDAEt callGQ callGInd callFQ
        callFInd a r).1.z0 = a.z0 ∧
      (spRev nx nz nrx nrz nq solveDAEt solveRDAEt callGQ callGInd callFQ
        callFInd a r).1.rz0 = a.rz0 := by
  intro nx nz nrx nrz nq solveDAEt solveRDAEt callGQ callGInd callFQ callFInd a r
  by_cases h : 0 < nrx <;> by_cases h2 : 0 < nq <;>
    simp [spRev, h, h2]

/-- The input/output slots of the discrete-time maps that the injected
rootfinder options can name: `DAE_Z`/`DAE_ALG` for the forward map
`F_`, `RDAE_RZ`/`RDAE_ALG` for the backward map `G_`. -/
inductive RfSlot where
  | DAE_Z
  | DAE_ALG
  | RDAE_RZ
  | RDAE_ALG
  deriving DecidableEq

/-- An option-dictionary value: either one of the slot constants
injected by `ImplicitFixedStepIntegrator::init`, or an opaque
user-supplied value. -/
inductive OptVal where
  | slotVal (s : RfSlot)
  | userVal (n : Nat)
  deriving DecidableEq

/-- `std::map::operator[]` assignment on an option dictionary: replace
the binding if the key is present, otherwise add it. -/
def setOpt : List (String × OptVal) → String → OptVal →
    List (String × OptVal)
  | [], k, v => [(k, v)]
  | (k', v') :: rest, k, v =>
    if k' = k then (k, v) :: rest else (k', v') :: setOpt rest k v

/-- Which discrete-time map a rootfinder is constructed over. -/
inductive DiscreteMap where
  | Fmap
  | Gmap
  deriving DecidableEq

/-- One constructed rootfinder: its option dictionary and the discrete
map it solves. -/
structure RootfinderSetup where
  opts : List (String × OptVal)
  over : DiscreteMap
  deriving DecidableEq

/-- The rootfinders constructed by `ImplicitFixedStepIntegrator::init`. -/
structure ImplicitInitResult where
  forwardRf : RootfinderSetup
  backwardRf : Option RootfinderSetup
  deriving DecidableEq

/-- `ImplicitFixedStepIntegrator::init` (lines 1294-1335): the user's
`rootfinder_options` are completed with `implicit_input = DAE_Z` and
`implicit_output = DAE_ALG` (lines 1312-1313) and a forward rootfinder
over `F_` is always allocated (line 1316); only when `nRZ_ > 0` is a
second, backward rootfinder over `G_` allocated, from a copy of the
completed dictionary with `implicit_input = RDAE_RZ` and
`implicit_output = RDAE_ALG` (lines 1321-1333). -/
def implicitFixedStepInit (userOpts : List (String × OptVal)) (nRZ : Nat) :
    ImplicitInitResult :=
  let ro := setOpt (setOpt userOpts "implicit_input" (OptVal.slotVal RfSlot.DAE_Z))
    "implicit_output" (OptVal.slotVal RfSlot.DAE_ALG)
  { forwardRf := ⟨ro, DiscreteMap.Fmap⟩
    backwardRf :=
      if 0 < nRZ then
        some ⟨setOpt (setOpt ro "implicit_input" (OptVal.slotVal RfSlot.RDAE_RZ))
          "implicit_output" (OptVal.slotVal RfSlot.RDAE_ALG), DiscreteMap.Gmap⟩
      else none }

theorem lookup_setOpt_self :
    ∀ (opts : List (String × OptVal)) (k : String) (v : OptVal),
      (setOpt opts k v).lookup k = some v
  | [], k, v => by simp [setOpt, List.lookup]
  | (k', v') :: rest, k, v => by
    by_cases h : k' = k
    · simp [setOpt, h, List.lookup]
    · simp only [setOpt, if_neg h, List.lookup]
      rw [show (k == k') = false by simp [Ne.symm h]]
      exact lookup_setOpt_self rest k v

theorem lookup_setOpt_ne :
    ∀ (opts : List (String × OptVal)) (k k' : String) (v : OptVal),
      k' ≠ k → (setOpt opts k v).lookup k' = opts.lookup k'
  | [], k, k', v, h => by
    simp only [setOpt, List.lookup]
    rw [show (k' == k) = false by simp [h]]
  | (k0, v0) :: rest, k, k', v, h => by
    by_cases h0 : k0 = k
    · simp only [setOpt, if_pos h0, List.lookup]
      rw [show (k' == k) = false by simp [h]]
      rw [show (k' == k0) = false by simp [h0 ▸ h]]
    · simp only [setOpt, if_neg h0, List.lookup]
      cases hbeq : (k' == k0) with
      | true => rfl
      | false => exact lookup_setOpt_ne rest k k' v h

/-- C9: `ImplicitFixedStepIntegrator::init` always builds a forward
rootfinder over `F` whose options carry the injected
`implicit_input = DAE_Z` and `implicit_output = DAE_ALG` and forward
every other user key verbatim; and it builds a backward rootfinder
(over `G`, with `implicit_input = RDAE_RZ`,
`implicit_output = RDAE_ALG`, again forwarding other keys verbatim)
iff the backward algebraic dimension `nRZ` is nonzero. -/
theorem implicit_init_rootfinders :
    ∀ (userOpts : List (String × OptVal)) (nRZ : Nat),
      (implicitFixedStepInit userOpts nRZ).forwardRf.over = DiscreteMap.Fmap ∧
      (implicitFixedStepInit userOpts nRZ).forwardRf.opts.lookup
        "implicit_input" = some (OptVal.slotVal RfSlot.DAE_Z) ∧
      (implicitFixedStepInit userOpts nRZ).forwardRf.opts.lookup
        "implicit_output" = some (OptVal.slotVal RfSlot.DAE_ALG) ∧
      (∀ kk : String, kk ≠ "implicit_input" → kk ≠ "implicit_output" →
        (implicitFixedStepInit userOpts nRZ).forwardRf.opts.lookup kk =
          userOpts.lookup kk) ∧
      ((implicitFixedStepInit userOpts nRZ).backwardRf.isSome ↔ 0 < nRZ) ∧
      (∀ b : RootfinderSetup,
        (implicitFixedStepInit userOpts nRZ).backwardRf = some b →
        b.over = DiscreteMap.Gmap ∧
        b.opts.lookup "implicit_input" = some (OptVal.slotVal RfSlot.RDAE_RZ) ∧
        b.opts.lookup "implicit_output" =
          some (OptVal.slotVal RfSlot.RDAE_ALG) ∧
        (∀ kk : String, kk ≠ "implicit_input" → kk ≠ "implicit_output" →
          b.opts.lookup kk = userOpts.lookup kk)) := by
  intro userOpts nRZ
  refine ⟨rfl, ?_, ?_, ?_, ?_, ?_⟩
  · show (setOpt (setOpt userOpts "implicit_input" _) "implicit_output"
      _).lookup "implicit_input" = _
    rw [lookup_setOpt_ne _ _ _ _ (by decide), lookup_setOpt_self]
  · exact lookup_setOpt_self _ _ _
  · intro kk h1 h2
    show (setOpt (setOpt userOpts "implicit_input" _) "implicit_output"
      _).lookup kk = _
    rw [lookup_setOpt_ne _ _ _ _ h2, lookup_setOpt_ne _ _ _ _ h1]
  · show (if 0 < nRZ then some _ else none).isSome ↔ 0 < nRZ
    by_cases h : 0 < nRZ <;> simp [h]
  · intro b hb
    have hb' : (if 0 < nRZ then
        some (⟨setOpt (setOpt (setOpt (setOpt userOpts "implicit_input"
            (OptVal.slotVal RfSlot.DAE_Z)) "implicit_output"
            (OptVal.slotVal RfSlot.DAE_ALG)) "implicit_input"
            (OptVal.slotVal RfSlot.RDAE_RZ)) "implicit_output"
            (OptVal.slotVal RfSlot.RDAE_ALG), DiscreteMap.Gmap⟩ :
          RootfinderSetup)
      else none) = some b := hb
    by_cases h : 0 < nRZ
    · rw [if_pos h] at hb'
      cases hb'
      refine ⟨rfl, ?_, ?_, ?_⟩
      · show (setOpt (setOpt _ "implicit_input" _) "implicit_output"
          _).lookup "implicit_input" = _
        rw [lookup_setOpt_ne _ _ _ _ (by decide), lookup_setOpt_self]
      · exact lookup_setOpt_self _ _ _
      · intro kk h1 h2
        show (setOpt (setOpt (setOpt (setOpt userOpts _ _) _ _) _ _)
          _ _).lookup kk = _
        rw [lookup_setOpt_ne _ _ _ _ h2, lookup_setOpt_ne _ _ _ _ h1,
          lookup_setOpt_ne _ _ _ _ h2, lookup_setOpt_ne _ _ _ _ h1]
    · rw [if_neg h] at hb'
      exact absurd hb' (by simp)

/-- Witness for C9 at a concrete user option dictionary. -/
theorem implicit_init_rootfinders_witness :
    (implicitFixedStepInit [("abstol", OptVal.userVal 5)] 1).forwardRf.opts.lookup
      "implicit_input" = some (OptVal.slotVal RfSlot.DAE_Z) ∧
    (implicitFixedStepInit [("abstol", OptVal.userVal 5)] 1).forwardRf.opts.lookup
      "abstol" = [("abstol", OptVal.userVal 5)].lookup "abstol" ∧
    ((implicitFixedStepInit [("abstol", OptVal.userVal 5)] 1).backwardRf.isSome ↔
      0 < 1) := by
  have h := implicit_init_rootfinders [("abstol", OptVal.userVal 5)] 1
  exact ⟨h.2.1, h.2.2.2.1 "abstol" (by decide) (by decide), h.2.2.2.2.1⟩

end Casadi

